import Mathlib

/-!
Shallow embedding of `heic_utils.py` (HEIC → JPG batch conversion).

The codec is abstracted as a function `enc : Int → List Nat` mapping a JPEG
quality to the encoded byte string (`_encode_jpeg(image, quality)`); an image
is identified with its encode function.  Python integers are embedded as
`Int`; Python's floor division `//` by the positive constant `2` coincides
with Lean's `/` on `Int` (Euclidean division).  Filesystem and codec effects
in the batch orchestrator are abstracted as `Except String`-valued oracles,
and an event trace records which external operations were invoked.
-/

/-- `TARGET_MIN_BYTES = 1_000_000` from `heic_utils.py`. -/
def TARGET_MIN_BYTES : Nat := 1000000

/-- `TARGET_MAX_BYTES = 2_000_000` from `heic_utils.py`. -/
def TARGET_MAX_BYTES : Nat := 2000000

/-- `QUALITY_MIN = 40` from `heic_utils.py`. -/
def QUALITY_MIN : Int := 40

/-- `QUALITY_MAX = 95` from `heic_utils.py`. -/
def QUALITY_MAX : Int := 95

/-- The `while low <= high` binary-search loop of `_encode_with_target_size`.
`best` holds `(size, quality, data)` exactly as the Python tuple does. -/
def bsearch (enc : Int → List Nat) (low high : Int)
    (best : Option (Nat × Int × List Nat)) : Option (Nat × Int × List Nat) :=
  if h : low ≤ high then
    let quality := (low + high) / 2
    let data := enc quality
    let size := data.length
    if TARGET_MAX_BYTES < size then
      bsearch enc low (quality - 1) best
    else
      bsearch enc (quality + 1) high (some (size, quality, data))
  else best
termination_by (high + 1 - low).toNat
decreasing_by
  · simp_wf
    omega
  · simp_wf
    omega

/-- One unfolding of `bsearch` in the running case. -/
theorem bsearch_step (enc : Int → List Nat) (low high : Int)
    (best : Option (Nat × Int × List Nat)) (h : low ≤ high) :
    bsearch enc low high best =
      if TARGET_MAX_BYTES < (enc ((low + high) / 2)).length then
        bsearch enc low ((low + high) / 2 - 1) best
      else
        bsearch enc ((low + high) / 2 + 1) high
          (some ((enc ((low + high) / 2)).length,
                 (low + high) / 2, enc ((low + high) / 2))) := by
  rw [bsearch]
  simp [h]

/-- `bsearch` in the terminated case. -/
theorem bsearch_stop (enc : Int → List Nat) (low high : Int)
    (best : Option (Nat × Int × List Nat)) (h : ¬ low ≤ high) :
    bsearch enc low high best = best := by
  rw [bsearch]
  simp [h]

/-- The `for quality in range(quality + 1, QUALITY_MAX + 1)` refinement loop
of `_encode_with_target_size`, entered with loop variable `q`; the range is
non-empty at its only call site.  Returns `(data, quality)` exactly as the
final `return data, quality` of the Python function sees them: on `break`
the loop variable keeps the value at which the oversize candidate was
produced. -/
def refineLoop (enc : Int → List Nat) (data : List Nat) (q stop : Int) :
    List Nat × Int :=
  let candidate := enc q
  if TARGET_MAX_BYTES < candidate.length then (data, q)
  else if h : q < stop then refineLoop enc candidate (q + 1) stop
  else (candidate, q)
termination_by (stop - q).toNat
decreasing_by
  simp_wf
  omega

/-- `refineLoop` when the candidate at `q` is oversize (Python `break`). -/
theorem refineLoop_break (enc : Int → List Nat) (data : List Nat) (q stop : Int)
    (h : TARGET_MAX_BYTES < (enc q).length) :
    refineLoop enc data q stop = (data, q) := by
  rw [refineLoop]
  simp [h]

/-- `refineLoop` when the candidate at `q` is accepted and the range
continues. -/
theorem refineLoop_cont (enc : Int → List Nat) (data : List Nat) (q stop : Int)
    (h1 : ¬ TARGET_MAX_BYTES < (enc q).length) (h2 : q < stop) :
    refineLoop enc data q stop = refineLoop enc (enc q) (q + 1) stop := by
  rw [refineLoop]
  simp [h1, h2]

/-- `refineLoop` when the candidate at `q` is accepted and the range is
exhausted. -/
theorem refineLoop_last (enc : Int → List Nat) (data : List Nat) (q stop : Int)
    (h1 : ¬ TARGET_MAX_BYTES < (enc q).length) (h2 : ¬ q < stop) :
    refineLoop enc data q stop = (enc q, q) := by
  rw [refineLoop]
  simp [h1, h2]

/-- `_encode_with_target_size` from `heic_utils.py`, with the image
abstracted as its encode function `enc`. -/
def encode_with_target_size (enc : Int → List Nat) : List Nat × Int :=
  match bsearch enc QUALITY_MIN QUALITY_MAX none with
  | none => (enc QUALITY_MIN, QUALITY_MIN)
  | some (size, quality, data) =>
    if size < TARGET_MIN_BYTES ∧ quality < QUALITY_MAX then
      refineLoop enc data (quality + 1) QUALITY_MAX
    else (data, quality)

/-- Any `(size, quality, data)` triple stored by `bsearch` has `size` equal
to the length of `data` and at most `TARGET_MAX_BYTES`. -/
theorem bsearch_size_inv (enc : Int → List Nat) :
    ∀ (n : Nat) (low high : Int) (best : Option (Nat × Int × List Nat)),
      (high + 1 - low).toNat ≤ n →
      (∀ s q d, best = some (s, q, d) → s = d.length ∧ s ≤ TARGET_MAX_BYTES) →
      ∀ s q d, bsearch enc low high best = some (s, q, d) →
        s = d.length ∧ s ≤ TARGET_MAX_BYTES := by
  intro n
  induction n with
  | zero =>
    intro low high best hn hbest s q d hres
    rw [bsearch_stop enc low high best (by omega)] at hres
    exact hbest s q d hres
  | succ n ih =>
    intro low high best hn hbest s q d hres
    by_cases hlh : low ≤ high
    · rw [bsearch_step enc low high best hlh] at hres
      have hml : low ≤ (low + high) / 2 := by omega
      have hmh : (low + high) / 2 ≤ high := by omega
      by_cases hbig : TARGET_MAX_BYTES < (enc ((low + high) / 2)).length
      · rw [if_pos hbig] at hres
        exact ih low ((low + high) / 2 - 1) best (by omega) hbest s q d hres
      · rw [if_neg hbig] at hres
        refine ih ((low + high) / 2 + 1) high _ (by omega) ?_ s q d hres
        intro s' q' d' hsome
        have h1 : (enc ((low + high) / 2)).length = s' ∧
            (low + high) / 2 = q' ∧ enc ((low + high) / 2) = d' := by
          simpa using hsome
        obtain ⟨hs', hq', hd'⟩ := h1
        subst hs'
        subst hd'
        exact ⟨rfl, le_of_not_lt hbig⟩
    · rw [bsearch_stop enc low high best hlh] at hres
      exact hbest s q d hres

/-- Main binary-search invariant under a size-monotone codec: on
termination, `none` means every quality in `[QUALITY_MIN, QUALITY_MAX]`
overflows `TARGET_MAX_BYTES`, and `some (s, q, d)` is the encode at the
greatest quality in the window that does not overflow. -/
theorem bsearch_mono_inv (enc : Int → List Nat)
    (hmono : ∀ a b : Int, a ≤ b → (enc a).length ≤ (enc b).length) :
    ∀ (n : Nat) (low high : Int) (best : Option (Nat × Int × List Nat)),
      (high + 1 - low).toNat ≤ n →
      QUALITY_MIN ≤ low → low ≤ QUALITY_MAX + 1 → high ≤ QUALITY_MAX →
      (∀ q : Int, high < q → q ≤ QUALITY_MAX →
        TARGET_MAX_BYTES < (enc q).length) →
      (best = none ∧ low = QUALITY_MIN ∨
       ∃ q : Int, best = some ((enc q).length, q, enc q) ∧ q + 1 = low ∧
         (enc q).length ≤ TARGET_MAX_BYTES ∧ QUALITY_MIN ≤ q) →
      ((bsearch enc low high best = none →
          ∀ q : Int, QUALITY_MIN ≤ q → q ≤ QUALITY_MAX →
            TARGET_MAX_BYTES < (enc q).length) ∧
       (∀ s qq d, bsearch enc low high best = some (s, qq, d) →
          d = enc qq ∧ s = d.length ∧ s ≤ TARGET_MAX_BYTES ∧
          QUALITY_MIN ≤ qq ∧ qq ≤ QUALITY_MAX ∧
          ∀ q : Int, qq < q → q ≤ QUALITY_MAX →
            TARGET_MAX_BYTES < (enc q).length)) := by
  intro n
  induction n with
  | zero =>
    intro low high best hn h1 h2 h3 hup hbest
    rw [bsearch_stop enc low high best (by omega)]
    constructor
    · intro hnone q hq1 hq2
      rcases hbest with ⟨-, hlow⟩ | ⟨q', hq', -⟩
      · exact hup q (by omega) hq2
      · rw [hq'] at hnone
        exact absurd hnone (by simp)
    · intro s qq d hsome
      rcases hbest with ⟨hno, -⟩ | ⟨q', hq', hlow', hle', hmin'⟩
      · rw [hno] at hsome
        exact absurd hsome (by simp)
      · rw [hq'] at hsome
        have heq : (enc q').length = s ∧ q' = qq ∧ enc q' = d := by
          simpa using hsome
        obtain ⟨hs, hqeq, hd⟩ := heq
        subst hqeq
        refine ⟨hd.symm, by rw [← hs, ← hd], by omega, by omega, by omega, ?_⟩
        intro q hgt hle
        exact hup q (by omega) hle
  | succ n ih =>
    intro low high best hn h1 h2 h3 hup hbest
    by_cases hlh : low ≤ high
    · rw [bsearch_step enc low high best hlh]
      have hml : low ≤ (low + high) / 2 := by omega
      have hmh : (low + high) / 2 ≤ high := by omega
      by_cases hbig : TARGET_MAX_BYTES < (enc ((low + high) / 2)).length
      · rw [if_pos hbig]
        refine ih low ((low + high) / 2 - 1) best (by omega) h1 h2 (by omega)
          ?_ hbest
        intro q hq1 hq2
        by_cases hqh : q ≤ high
        · exact lt_of_lt_of_le hbig (hmono _ q (by omega))
        · exact hup q (by omega) hq2
      · rw [if_neg hbig]
        refine ih ((low + high) / 2 + 1) high _ (by omega) (by omega) (by omega)
          h3 hup ?_
        right
        exact ⟨(low + high) / 2, rfl, rfl, le_of_not_lt hbig, by omega⟩
    · rw [bsearch_stop enc low high best hlh]
      constructor
      · intro hnone q hq1 hq2
        rcases hbest with ⟨-, hlow⟩ | ⟨q', hq', -⟩
        · exact hup q (by omega) hq2
        · rw [hq'] at hnone
          exact absurd hnone (by simp)
      · intro s qq d hsome
        rcases hbest with ⟨hno, -⟩ | ⟨q', hq', hlow', hle', hmin'⟩
        · rw [hno] at hsome
          exact absurd hsome (by simp)
        · rw [hq'] at hsome
          have heq : (enc q').length = s ∧ q' = qq ∧ enc q' = d := by
            simpa using hsome
          obtain ⟨hs, hqeq, hd⟩ := heq
          subst hqeq
          refine ⟨hd.symm, by rw [← hs, ← hd], by omega, by omega, by omega, ?_⟩
          intro q hgt hle
          exact hup q (by omega) hle

/-- C1: if the codec's size is non-decreasing in quality and some quality in
`[QUALITY_MIN, QUALITY_MAX]` encodes into `[TARGET_MIN_BYTES,
TARGET_MAX_BYTES]`, then `_encode_with_target_size` returns bytes whose
length lies in that window. -/
theorem encode_with_target_size_in_window (enc : Int → List Nat)
    (hmono : ∀ a b : Int, a ≤ b → (enc a).length ≤ (enc b).length)
    (q0 : Int) (hq0min : QUALITY_MIN ≤ q0) (hq0max : q0 ≤ QUALITY_MAX)
    (hmin : TARGET_MIN_BYTES ≤ (enc q0).length)
    (hmax : (enc q0).length ≤ TARGET_MAX_BYTES) :
    TARGET_MIN_BYTES ≤ (encode_with_target_size enc).1.length ∧
    (encode_with_target_size enc).1.length ≤ TARGET_MAX_BYTES := by
  have hinv := bsearch_mono_inv enc hmono 56 QUALITY_MIN QUALITY_MAX none
    (by norm_num [QUALITY_MIN, QUALITY_MAX]) (le_refl _)
    (by norm_num [QUALITY_MIN, QUALITY_MAX]) (le_refl _)
    (fun q hq1 hq2 => absurd hq1 (by omega)) (Or.inl ⟨rfl, rfl⟩)
  cases hres : bsearch enc QUALITY_MIN QUALITY_MAX none with
  | none =>
    exact absurd (hinv.1 hres q0 hq0min hq0max) (by omega)
  | some t =>
    obtain ⟨s, qq, d⟩ := t
    obtain ⟨hd, hs, hsmax, hqmin, hqmax, hmaxq⟩ := hinv.2 s qq d hres
    have hq0qq : q0 ≤ qq := by
      by_contra hlt
      push_neg at hlt
      exact absurd (hmaxq q0 hlt hq0max) (by omega)
    have hlen : (enc q0).length ≤ (enc qq).length := hmono q0 qq hq0qq
    have hsmin : TARGET_MIN_BYTES ≤ s := by
      rw [hs, hd]
      omega
    have hgoal : encode_with_target_size enc = (d, qq) := by
      unfold encode_with_target_size
      rw [hres]
      exact if_neg (by rintro ⟨ha, -⟩; omega)
    rw [hgoal]
    exact ⟨by simpa [← hs] using hsmin, by simpa [← hs] using hsmax⟩

/-- A concrete codec whose size grows linearly with quality. -/
def encLinear : Int → List Nat := fun q => List.replicate (25000 * q.toNat) 0

/-- Witness for C1: `encLinear` is size-monotone and quality 40 encodes to
exactly 1,000,000 bytes, so the search lands in the window. -/
theorem encode_with_target_size_in_window_witness :
    TARGET_MIN_BYTES ≤ (encode_with_target_size encLinear).1.length ∧
    (encode_with_target_size encLinear).1.length ≤ TARGET_MAX_BYTES :=
  encode_with_target_size_in_window encLinear
    (fun a b h => by simp only [encLinear, List.length_replicate]; omega)
    40 (by norm_num [QUALITY_MIN]) (by norm_num [QUALITY_MAX])
    (by simp only [encLinear, List.length_replicate, TARGET_MIN_BYTES]; omega)
    (by simp only [encLinear, List.length_replicate, TARGET_MAX_BYTES]; omega)

/-- `_encode_with_target_size` when the binary search found no candidate. -/
theorem encode_eq_of_bsearch_none (enc : Int → List Nat)
    (h : bsearch enc QUALITY_MIN QUALITY_MAX none = none) :
    encode_with_target_size enc = (enc QUALITY_MIN, QUALITY_MIN) := by
  unfold encode_with_target_size
  rw [h]

/-- `_encode_with_target_size` when the binary search found a candidate. -/
theorem encode_eq_of_bsearch_some (enc : Int → List Nat) (s : Nat) (qq : Int)
    (d : List Nat)
    (h : bsearch enc QUALITY_MIN QUALITY_MAX none = some (s, qq, d)) :
    encode_with_target_size enc =
      if s < TARGET_MIN_BYTES ∧ qq < QUALITY_MAX then
        refineLoop enc d (qq + 1) QUALITY_MAX
      else (d, qq) := by
  unfold encode_with_target_size
  rw [h]

/-- Accepted candidates in `refineLoop` never exceed `TARGET_MAX_BYTES`, so
if the incoming data fits, the returned data fits. -/
theorem refineLoop_size_le (enc : Int → List Nat) :
    ∀ (n : Nat) (data : List Nat) (q stop : Int),
      (stop - q).toNat ≤ n → data.length ≤ TARGET_MAX_BYTES →
      (refineLoop enc data q stop).1.length ≤ TARGET_MAX_BYTES := by
  intro n
  induction n with
  | zero =>
    intro data q stop hn hdata
    by_cases hbig : TARGET_MAX_BYTES < (enc q).length
    · rw [refineLoop_break enc data q stop hbig]
      simpa using hdata
    · rw [refineLoop_last enc data q stop hbig (by omega)]
      simpa using le_of_not_lt hbig
  | succ n ih =>
    intro data q stop hn hdata
    by_cases hbig : TARGET_MAX_BYTES < (enc q).length
    · rw [refineLoop_break enc data q stop hbig]
      simpa using hdata
    · by_cases hlt : q < stop
      · rw [refineLoop_cont enc data q stop hbig hlt]
        exact ih (enc q) (q + 1) stop (by omega) (le_of_not_lt hbig)
      · rw [refineLoop_last enc data q stop hbig hlt]
        simpa using le_of_not_lt hbig

/-- C3 (amended): for every image, the returned encoding fits under
`TARGET_MAX_BYTES`, or the returned quality is `QUALITY_MIN` (the defensive
fallback that re-encodes at `quality_min`). -/
theorem encode_size_cap_or_fallback (enc : Int → List Nat) :
    (encode_with_target_size enc).1.length ≤ TARGET_MAX_BYTES ∨
    (encode_with_target_size enc).2 = QUALITY_MIN := by
  cases hres : bsearch enc QUALITY_MIN QUALITY_MAX none with
  | none =>
    right
    rw [encode_eq_of_bsearch_none enc hres]
  | some t =>
    obtain ⟨s, qq, d⟩ := t
    obtain ⟨hs, hsmax⟩ := bsearch_size_inv enc 56 QUALITY_MIN QUALITY_MAX none
      (by norm_num [QUALITY_MIN, QUALITY_MAX]) (by simp) s qq d hres
    left
    rw [encode_eq_of_bsearch_some enc s qq d hres]
    by_cases hc : s < TARGET_MIN_BYTES ∧ qq < QUALITY_MAX
    · rw [if_pos hc]
      exact refineLoop_size_le enc ((QUALITY_MAX - (qq + 1)).toNat) d (qq + 1)
        QUALITY_MAX (le_refl _) (by omega)
    · rw [if_neg hc]
      simpa [← hs] using hsmax

/-- A concrete codec that is oversize at every quality (2,000,001 bytes). -/
def encBig : Int → List Nat := fun _ => List.replicate 2000001 0

/-- On `encBig` the binary search probes qualities 67, 53, 46, 42, 40, all
oversize, and ends with no candidate. -/
theorem encBig_bsearch : bsearch encBig QUALITY_MIN QUALITY_MAX none = none := by
  show bsearch encBig 40 95 none = none
  rw [bsearch_step encBig 40 95 none (by norm_num)]
  norm_num [encBig, TARGET_MAX_BYTES]
  rw [bsearch_step encBig 40 66 none (by norm_num)]
  norm_num [encBig, TARGET_MAX_BYTES]
  rw [bsearch_step encBig 40 52 none (by norm_num)]
  norm_num [encBig, TARGET_MAX_BYTES]
  rw [bsearch_step encBig 40 45 none (by norm_num)]
  norm_num [encBig, TARGET_MAX_BYTES]
  rw [bsearch_step encBig 40 41 none (by norm_num)]
  norm_num [encBig, TARGET_MAX_BYTES]
  rw [bsearch_stop encBig 40 39 none (by norm_num)]

/-- On `encBig`, `_encode_with_target_size` takes the defensive fallback:
it returns the oversize encode at `QUALITY_MIN`. -/
theorem encBig_eval :
    encode_with_target_size encBig = (List.replicate 2000001 0, QUALITY_MIN) :=
  encode_eq_of_bsearch_none encBig encBig_bsearch

/-- Counterexample to C3 as stated: on `encBig` (even size-monotone), the
returned size exceeds `TARGET_MAX_BYTES` and the returned quality is
`QUALITY_MIN = 40`, not `QUALITY_MAX = 95`. -/
theorem encode_size_cap_or_qmax_false :
    ¬ ((encode_with_target_size encBig).1.length ≤ TARGET_MAX_BYTES ∨
       (encode_with_target_size encBig).2 = QUALITY_MAX) := by
  rw [encBig_eval]
  norm_num [TARGET_MAX_BYTES, QUALITY_MIN, QUALITY_MAX]

/-- A concrete size-monotone codec: 900,000 bytes up to quality 67,
2,500,000 bytes from quality 68 on. -/
def encStair : Int → List Nat :=
  fun q => List.replicate (if q ≤ 67 then 900000 else 2500000) 0

/-- On `encStair` the binary search accepts quality 67 (900,000 bytes) and
rejects 81, 74, 70, 68, ending with best candidate quality 67. -/
theorem encStair_bsearch :
    bsearch encStair QUALITY_MIN QUALITY_MAX none =
      some (900000, 67, List.replicate 900000 0) := by
  show bsearch encStair 40 95 none = some (900000, 67, List.replicate 900000 0)
  rw [bsearch_step encStair 40 95 none (by norm_num)]
  norm_num [encStair, TARGET_MAX_BYTES]
  rw [bsearch_step encStair 68 95 _ (by norm_num)]
  norm_num [encStair, TARGET_MAX_BYTES]
  rw [bsearch_step encStair 68 80 _ (by norm_num)]
  norm_num [encStair, TARGET_MAX_BYTES]
  rw [bsearch_step encStair 68 73 _ (by norm_num)]
  norm_num [encStair, TARGET_MAX_BYTES]
  rw [bsearch_step encStair 68 69 _ (by norm_num)]
  norm_num [encStair, TARGET_MAX_BYTES]
  rw [bsearch_stop encStair 68 67 _ (by norm_num)]

/-- On `encStair`, the refinement loop probes quality 68, finds it oversize
and breaks; the Python loop variable `quality` keeps the value 68 while
`data` stays the encode made at quality 67. -/
theorem encStair_eval :
    encode_with_target_size encStair = (List.replicate 900000 0, 68) := by
  rw [encode_eq_of_bsearch_some encStair 900000 67 (List.replicate 900000 0)
    encStair_bsearch]
  rw [if_pos (by norm_num [TARGET_MIN_BYTES, QUALITY_MAX])]
  show refineLoop encStair (List.replicate 900000 0) 68 QUALITY_MAX =
    (List.replicate 900000 0, 68)
  rw [refineLoop_break encStair _ 68 QUALITY_MAX
    (by norm_num [encStair, TARGET_MAX_BYTES])]

/-- C2 at `encStair`: the pair returned by `_encode_with_target_size` is
inconsistent — the bytes were encoded at quality 67, but the returned
quality is 68, the quality of the rejected oversize probe. -/
theorem encode_refinement_quality_mismatch :
    (encode_with_target_size encStair).2 = 68 ∧
    (encode_with_target_size encStair).1 = encStair 67 ∧
    encStair 67 ≠ encStair 68 := by
  refine ⟨by rw [encStair_eval], by rw [encStair_eval]; norm_num [encStair], ?_⟩
  intro h
  have hlen := congrArg List.length h
  norm_num [encStair] at hlen

/-- `ConversionResult` dataclass from `heic_utils.py`. -/
structure ConversionResult where
  source : String
  target : String
  quality : Int
  size_bytes : Nat
deriving Repr, DecidableEq

/-- External operations performed by `convert_heic_batch`, recorded in
order of invocation. -/
inductive Event where
  | ensureHeif
  | mkdirBackup
  | backup (src : String)
  | convert (src : String)
  | removeAttempt (src : String)
  | progress (done total : Nat)
deriving Repr, DecidableEq

/-- Whether an event is a progress-callback invocation. -/
def Event.isProgress : Event → Bool
  | Event.progress _ _ => true
  | _ => false

/-- Oracle describing what the filesystem and codec do for one source file:
the outcome of `_copy_to_backup`, of `_convert_single` (target path, chosen
quality, output size), and of `_remove_source_file`. -/
structure FileOps where
  backupR : Except String Unit
  convertR : Except String (String × Int × Nat)
  removeR : Except String Unit

/-- The cleanup-failure message built at line 88 of `heic_utils.py`. -/
def cleanupMsg (e : String) : String :=
  "Przekonwertowano, ale nie udało się usunąć oryginału: " ++ e

/-- The body of the `for src in heic_paths` loop of `convert_heic_batch`
(without the `finally` block): at most one `ConversionResult`, at most one
error pair, and the trace of attempted operations. -/
def processFile (src : String) (ops : FileOps) (remove_source : Bool) :
    Option ConversionResult × Option (String × String) × List Event :=
  match ops.backupR with
  | Except.error e => (none, some (src, e), [Event.backup src])
  | Except.ok _ =>
    match ops.convertR with
    | Except.error e =>
      (none, some (src, e), [Event.backup src, Event.convert src])
    | Except.ok (target, quality, size) =>
      let res : ConversionResult := ⟨src, target, quality, size⟩
      if remove_source then
        match ops.removeR with
        | Except.error e =>
          (some res, some (src, cleanupMsg e),
           [Event.backup src, Event.convert src, Event.removeAttempt src])
        | Except.ok _ =>
          (some res, none,
           [Event.backup src, Event.convert src, Event.removeAttempt src])
      else (some res, none, [Event.backup src, Event.convert src])

/-- The `for src in heic_paths` loop of `convert_heic_batch`, threading the
`done` counter.  `cbRaises done total` says whether the progress callback
raises on that invocation; the `except Exception: pass` around the call
discards that outcome, so it influences nothing. -/
def batchLoop (remove_source : Bool) (hasCallback : Bool)
    (cbRaises : Nat → Nat → Bool) (total : Nat) :
    List (String × FileOps) → Nat →
      List ConversionResult × List (String × String) × List Event
  | [], _ => ([], [], [])
  | (src, ops) :: rest, done =>
    let step := processFile src ops remove_source
    let progressEvs : List Event :=
      if hasCallback then [Event.progress (done + 1) total] else []
    let restOut :=
      batchLoop remove_source hasCallback cbRaises total rest (done + 1)
    (step.1.toList ++ restOut.1, step.2.1.toList ++ restOut.2.1,
     step.2.2 ++ progressEvs ++ restOut.2.2)

/-- `convert_heic_batch` from `heic_utils.py`.  `ensureR` is the outcome of
`_ensure_heif_registered()`, `mkdirR` that of `backup_dir.mkdir(...)`; both
are called outside any `try`, so their failures propagate.  Returns the
batch outcome (or the propagated exception) together with the event
trace. -/
def convert_heic_batch (paths : List (String × FileOps)) (remove_source : Bool)
    (hasCallback : Bool) (cbRaises : Nat → Nat → Bool)
    (ensureR mkdirR : Except String Unit) :
    Except String (List ConversionResult × List (String × String)) ×
      List Event :=
  if paths.isEmpty then (Except.ok ([], []), [])
  else
    match ensureR with
    | Except.error e => (Except.error e, [Event.ensureHeif])
    | Except.ok _ =>
      match mkdirR with
      | Except.error e =>
        (Except.error e, [Event.ensureHeif, Event.mkdirBackup])
      | Except.ok _ =>
        let out := batchLoop remove_source hasCallback cbRaises
          paths.length paths 0
        (Except.ok (out.1, out.2.1),
         Event.ensureHeif :: Event.mkdirBackup :: out.2.2)

/-- `_copy_to_backup` from `heic_utils.py`: the backup directory as an
association list from file name to file content; `dst.exists()` is a lookup
and `shutil.copy2` appends the pair. -/
def copy_to_backup (src : String × String)
    (backup_dir : List (String × String)) : List (String × String) :=
  if (backup_dir.lookup src.1).isSome then backup_dir
  else backup_dir ++ [src]

/-- `_remove_source_file` from `heic_utils.py`: `src.exists()` is the Bool
`srcExists`, `src.unlink()` has outcome `unlinkR`. -/
def remove_source_file (srcExists : Bool) (unlinkR : Except String Unit) :
    Except String Unit :=
  if srcExists then unlinkR else Except.ok ()

/-- The dependency-missing message raised at lines 174-177 of
`heic_utils.py`. -/
def depMissingMsg : String :=
  "Brak zależności pillow-heif. Aby przekonwertować pliki HEIC, zainstaluj pakiet:\n    pip install pillow-heif"

/-- `_ensure_heif_registered` from `heic_utils.py`: `registered` is the
global `_HEIF_REGISTERED`, `importOk` whether `pillow_heif` imports,
`registerR` the outcome of `register_heif_opener()`.  Returns the call's
outcome and the new value of `_HEIF_REGISTERED`. -/
def ensure_heif_registered (registered importOk : Bool)
    (registerR : Except String Unit) : Except String Unit × Bool :=
  if registered then (Except.ok (), registered)
  else if importOk then
    match registerR with
    | Except.ok _ => (Except.ok (), true)
    | Except.error e => (Except.error e, false)
  else (Except.error depMissingMsg, false)

/-- C7: on an empty input list `convert_heic_batch` returns `([], [])` with
an empty event trace — no registration attempt, no directory creation, no
backup/convert/delete, no progress call, whatever the oracles would do. -/
theorem convert_heic_batch_empty (remove_source hasCallback : Bool)
    (cbRaises : Nat → Nat → Bool) (ensureR mkdirR : Except String Unit) :
    convert_heic_batch [] remove_source hasCallback cbRaises ensureR mkdirR =
      (Except.ok ([], []), []) := rfl

/-- The per-file step never emits a progress event. -/
theorem processFile_no_progress (src : String) (ops : FileOps)
    (remove_source : Bool) :
    (processFile src ops remove_source).2.2.filter Event.isProgress = [] := by
  rcases hb : ops.backupR with e | u
  · simp [processFile, hb, Event.isProgress]
  · rcases hc : ops.convertR with e | v
    · simp [processFile, hb, hc, Event.isProgress]
    · obtain ⟨target, quality, size⟩ := v
      rcases hr : ops.removeR with e | u2 <;> cases remove_source <;>
        simp [processFile, hb, hc, hr, Event.isProgress]

/-- The progress calls recorded by the batch loop, described recursively:
one call per file, with `done` counting up from the accumulator. -/
def progressCalls (done total : Nat) : Nat → List Event
  | 0 => []
  | Nat.succ m => Event.progress (done + 1) total :: progressCalls (done + 1) total m

/-- `progressCalls` in closed form. -/
theorem progressCalls_eq_map (total : Nat) :
    ∀ (n done : Nat), progressCalls done total n =
      (List.range n).map (fun i => Event.progress (done + i + 1) total) := by
  intro n
  induction n with
  | zero => intro done; simp [progressCalls]
  | succ m ih =>
    intro done
    rw [progressCalls, ih (done + 1), List.range_succ_eq_map]
    simp only [List.map_cons, List.map_map]
    refine congrArg₂ _ (by simp) (List.map_congr_left ?_)
    intro i hi
    simp only [Function.comp_apply]
    congr 1
    omega

/-- With a callback installed, the batch loop emits exactly the expected
progress events, one per file, independent of each file's outcome and of
whether the callback raises. -/
theorem batchLoop_progress (remove_source : Bool) (cbRaises : Nat → Nat → Bool)
    (total : Nat) :
    ∀ (l : List (String × FileOps)) (done : Nat),
      (batchLoop remove_source true cbRaises total l done).2.2.filter
          Event.isProgress =
        progressCalls done total l.length := by
  intro l
  induction l with
  | nil => intro done; simp [batchLoop, progressCalls]
  | cons hd tl ih =>
    intro done
    obtain ⟨src, ops⟩ := hd
    simp only [batchLoop, List.length_cons, progressCalls, List.filter_append,
      processFile_no_progress, List.nil_append, if_pos]
    rw [ih (done + 1)]
    simp [Event.isProgress]

/-- C4: for a non-empty batch with a progress callback (and setup oracles
succeeding, so the loop runs), the callback is invoked exactly `N` times
with arguments `(1, N), (2, N), …, (N, N)`, regardless of each path's
outcome and of the callback raising. -/
theorem convert_heic_batch_progress (paths : List (String × FileOps))
    (remove_source : Bool) (cbRaises : Nat → Nat → Bool)
    (hne : paths ≠ []) :
    (convert_heic_batch paths remove_source true cbRaises
        (Except.ok ()) (Except.ok ())).2.filter Event.isProgress =
      (List.range paths.length).map
        (fun i => Event.progress (i + 1) paths.length) := by
  unfold convert_heic_batch
  rw [if_neg (by simpa using hne)]
  show (Event.ensureHeif :: Event.mkdirBackup ::
      (batchLoop remove_source true cbRaises paths.length paths 0).2.2).filter
        Event.isProgress = _
  rw [List.filter_cons_of_neg (by simp [Event.isProgress]),
    List.filter_cons_of_neg (by simp [Event.isProgress]),
    batchLoop_progress, progressCalls_eq_map]
  simp

/-- A per-file oracle where backup, conversion and deletion all succeed. -/
def opsOk : FileOps :=
  ⟨Except.ok (), Except.ok ("a.jpg", 90, 1500000), Except.ok ()⟩

/-- A per-file oracle where conversion fails. -/
def opsBad : FileOps :=
  ⟨Except.ok (), Except.error "decode failed", Except.ok ()⟩

/-- Witness for C4: a two-file batch, second file failing, callback raising
on its first invocation; progress is still `(1,2), (2,2)`. -/
theorem convert_heic_batch_progress_witness :
    ([("a.heic", opsOk), ("b.heic", opsBad)] : List (String × FileOps)) ≠ [] ∧
    (convert_heic_batch [("a.heic", opsOk), ("b.heic", opsBad)] false true
        (fun d _ => d == 1) (Except.ok ()) (Except.ok ())).2.filter
      Event.isProgress =
      (List.range 2).map (fun i => Event.progress (i + 1) 2) :=
  ⟨by simp,
   convert_heic_batch_progress [("a.heic", opsOk), ("b.heic", opsBad)] false
     (fun d _ => d == 1) (by simp)⟩

/-- The converted list and error list produced by the batch loop are the
per-file dispositions, in input order, at most one of each per entry. -/
theorem batchLoop_outcomes (remove_source hasCallback : Bool)
    (cbRaises : Nat → Nat → Bool) (total : Nat) :
    ∀ (l : List (String × FileOps)) (done : Nat),
      (batchLoop remove_source hasCallback cbRaises total l done).1 =
        l.filterMap (fun p => (processFile p.1 p.2 remove_source).1) ∧
      (batchLoop remove_source hasCallback cbRaises total l done).2.1 =
        l.filterMap (fun p => (processFile p.1 p.2 remove_source).2.1) := by
  intro l
  induction l with
  | nil => intro done; simp [batchLoop]
  | cons hd tl ih =>
    intro done
    obtain ⟨src, ops⟩ := hd
    obtain ⟨ih1, ih2⟩ := ih (done + 1)
    constructor
    · simp only [batchLoop, List.filterMap_cons]
      cases hres : (processFile src ops remove_source).1 <;> simp [hres, ih1]
    · simp only [batchLoop, List.filterMap_cons]
      cases hres : (processFile src ops remove_source).2.1 <;> simp [hres, ih2]

/-- C5: the batch outcome pairs each input with at most one
`ConversionResult` and at most one error entry (`filterMap` of its
per-file disposition); both are present exactly when conversion succeeded,
`remove_source` was set and deletion failed; when backup or conversion
fails, the disposition is exactly one error, no result, and the deletion
step is never attempted. -/
theorem convert_heic_batch_per_file (paths : List (String × FileOps))
    (remove_source hasCallback : Bool) (cbRaises : Nat → Nat → Bool)
    (hne : paths ≠ []) :
    ((convert_heic_batch paths remove_source hasCallback cbRaises
        (Except.ok ()) (Except.ok ())).1 =
      Except.ok
        (paths.filterMap (fun p => (processFile p.1 p.2 remove_source).1),
         paths.filterMap (fun p => (processFile p.1 p.2 remove_source).2.1))) ∧
    (∀ src ops,
      ((processFile src ops remove_source).1.isSome ∧
        (processFile src ops remove_source).2.1.isSome) ↔
      (ops.backupR = Except.ok () ∧ (∃ v, ops.convertR = Except.ok v) ∧
        remove_source = true ∧ ∃ e, ops.removeR = Except.error e)) ∧
    (∀ src ops e,
      (ops.backupR = Except.error e ∨
        (ops.backupR = Except.ok () ∧ ops.convertR = Except.error e)) →
      (processFile src ops remove_source).1 = none ∧
      (processFile src ops remove_source).2.1 = some (src, e) ∧
      Event.removeAttempt src ∉ (processFile src ops remove_source).2.2) := by
  refine ⟨?_, ?_, ?_⟩
  · unfold convert_heic_batch
    rw [if_neg (by simpa using hne)]
    obtain ⟨h1, h2⟩ := batchLoop_outcomes remove_source hasCallback cbRaises
      paths.length paths 0
    show Except.ok
        ((batchLoop remove_source hasCallback cbRaises paths.length paths 0).1,
         (batchLoop remove_source hasCallback cbRaises paths.length paths 0).2.1)
      = _
    rw [h1, h2]
  · intro src ops
    rcases hb : ops.backupR with e0 | u0 <;>
      [skip; rcases hc : ops.convertR with e1 | v]
    · simp [processFile, hb]
    · simp [processFile, hb, hc]
    · obtain ⟨t, q, sz⟩ := v
      rcases hr : ops.removeR with e2 | u2 <;> cases remove_source <;>
        simp [processFile, hb, hc, hr]
  · intro src ops e hcase
    rcases hcase with hb | ⟨hb, hc⟩
    · simp [processFile, hb]
    · simp [processFile, hb, hc]

/-- Witness for C5: a one-file batch whose conversion fails yields no
result and exactly that error. -/
theorem convert_heic_batch_per_file_witness :
    (convert_heic_batch [("b.heic", opsBad)] false false (fun _ _ => false)
        (Except.ok ()) (Except.ok ())).1 =
      Except.ok
        (([("b.heic", opsBad)] : List (String × FileOps)).filterMap
          (fun p => (processFile p.1 p.2 false).1),
         ([("b.heic", opsBad)] : List (String × FileOps)).filterMap
          (fun p => (processFile p.1 p.2 false).2.1)) :=
  (convert_heic_batch_per_file [("b.heic", opsBad)] false false
    (fun _ _ => false) (by simp)).1

/-- Counterexample to C6 as stated: with the codec registration succeeding
and `backup_dir.mkdir` failing, the batch itself raises — so the one-time
registration failure is not the only batch-level raise. -/
theorem batch_raises_on_mkdir_failure :
    (convert_heic_batch [("a.heic", opsOk)] false false (fun _ _ => false)
        (Except.ok ()) (Except.error "mkdir failed")).1 =
      Except.error "mkdir failed" ∧
    (Except.ok () : Except String Unit) ≠ Except.error "mkdir failed" :=
  ⟨rfl, by simp⟩

/-- C6 (amended): `convert_heic_batch` raises only for the codec
registration failure or the backup-directory creation failure, both before
any file is processed (the trace holds setup events only); once both setup
steps succeed, every per-file failure is recorded in the outcome and the
batch returns normally. -/
theorem convert_heic_batch_raises_setup_only (paths : List (String × FileOps))
    (remove_source hasCallback : Bool) (cbRaises : Nat → Nat → Bool)
    (ensureR mkdirR : Except String Unit) :
    (∀ e, (convert_heic_batch paths remove_source hasCallback cbRaises
        ensureR mkdirR).1 = Except.error e →
      (ensureR = Except.error e ∨
        (ensureR = Except.ok () ∧ mkdirR = Except.error e)) ∧
      ∀ ev ∈ (convert_heic_batch paths remove_source hasCallback cbRaises
          ensureR mkdirR).2,
        ev = Event.ensureHeif ∨ ev = Event.mkdirBackup) ∧
    (ensureR = Except.ok () → mkdirR = Except.ok () →
      ∃ out, (convert_heic_batch paths remove_source hasCallback cbRaises
          ensureR mkdirR).1 = Except.ok out) := by
  unfold convert_heic_batch
  by_cases hemp : paths.isEmpty
  · rw [if_pos hemp]
    exact ⟨fun e he => absurd he (by simp), fun _ _ => ⟨([], []), rfl⟩⟩
  · rw [if_neg hemp]
    rcases ensureR with e0 | u0
    · refine ⟨fun e he => ?_, fun hok => absurd hok (by simp)⟩
      have he0 : e0 = e := by simpa using he
      subst he0
      refine ⟨Or.inl rfl, ?_⟩
      intro ev hev
      simp only [List.mem_singleton] at hev
      exact Or.inl hev
    · rcases mkdirR with e1 | u1
      · refine ⟨fun e he => ?_, fun _ hok => absurd hok (by simp)⟩
        have he1 : e1 = e := by simpa using he
        subst he1
        refine ⟨Or.inr ⟨rfl, rfl⟩, ?_⟩
        intro ev hev
        simp only [List.mem_cons, List.mem_singleton, List.not_mem_nil,
          or_false] at hev
        exact hev
      · exact ⟨fun e he => absurd he (by simp), fun _ _ => ⟨_, rfl⟩⟩

/-- Witness for C6 (amended): with both setup oracles succeeding, the batch
returns normally. -/
theorem convert_heic_batch_raises_setup_only_witness :
    ∃ out, (convert_heic_batch [("a.heic", opsOk)] false false
        (fun _ _ => false) (Except.ok ()) (Except.ok ())).1 =
      Except.ok out :=
  (convert_heic_batch_raises_setup_only [("a.heic", opsOk)] false false
    (fun _ _ => false) (Except.ok ()) (Except.ok ())).2 rfl rfl

/-- After appending `(k, v)` at the back, looking up `k` always succeeds. -/
theorem lookup_append_single_self (k v : String) :
    ∀ l : List (String × String), ((l ++ [(k, v)]).lookup k).isSome := by
  intro l
  induction l with
  | nil => simp [List.lookup]
  | cons hd tl ih =>
    obtain ⟨a, b⟩ := hd
    simp only [List.cons_append, List.lookup]
    cases hba : k == a
    · exact ih
    · simp

/-- If `lookup k` fails, no entry of the list has key `k`. -/
theorem filter_key_eq_nil (k : String) :
    ∀ l : List (String × String), l.lookup k = none →
      l.filter (fun p => p.1 == k) = [] := by
  intro l
  induction l with
  | nil => intro h; rfl
  | cons hd tl ih =>
    obtain ⟨a, b⟩ := hd
    intro h
    simp only [List.lookup] at h
    cases hba : k == a
    · rw [hba] at h
      have hne : k ≠ a := beq_eq_false_iff_ne.mp hba
      have hak : (a == k) = false :=
        beq_eq_false_iff_ne.mpr (fun hne2 => hne hne2.symm)
      have htl : List.lookup k tl = none := by simpa using h
      simp [List.filter_cons, hak, ih htl]
    · rw [hba] at h
      simp at h

/-- C8: `_copy_to_backup` skips the copy entirely when a file of the same
name exists in the backup directory; a second call for the same name is a
no-op, and starting from a directory without that name, two calls leave
exactly one entry under that name, holding the first call's content. -/
theorem copy_to_backup_first_write_wins (src : String × String) (c2 : String)
    (bd : List (String × String)) :
    ((bd.lookup src.1).isSome → copy_to_backup src bd = bd) ∧
    copy_to_backup (src.1, c2) (copy_to_backup src bd) = copy_to_backup src bd ∧
    (bd.lookup src.1 = none →
      (copy_to_backup (src.1, c2) (copy_to_backup src bd)).filter
        (fun p => p.1 == src.1) = [src]) := by
  obtain ⟨k, v⟩ := src
  refine ⟨fun h => by simp [copy_to_backup, h], ?_, ?_⟩
  · by_cases h : (bd.lookup k).isSome
    · simp [copy_to_backup, h]
    · have h1 : copy_to_backup (k, v) bd = bd ++ [(k, v)] := by
        simp [copy_to_backup, h]
      rw [h1]
      simp [copy_to_backup, lookup_append_single_self k v bd]
  · intro hnone
    have h' : ¬ (bd.lookup k).isSome := by simp [hnone]
    have h1 : copy_to_backup (k, v) bd = bd ++ [(k, v)] := by
      simp [copy_to_backup, h']
    have h2 : copy_to_backup (k, c2) (bd ++ [(k, v)]) = bd ++ [(k, v)] := by
      simp [copy_to_backup, lookup_append_single_self k v bd]
    rw [h1, h2, List.filter_append, filter_key_eq_nil k bd hnone]
    simp

/-- Witness for C8: an empty backup directory, two copies of `a.heic` with
changed content; exactly the first content survives. -/
theorem copy_to_backup_first_write_wins_witness :
    (copy_to_backup ("a.heic", "v2") (copy_to_backup ("a.heic", "v1") [])).filter
      (fun p => p.1 == "a.heic") = [("a.heic", "v1")] :=
  (copy_to_backup_first_write_wins ("a.heic", "v1") "v2" []).2.2 rfl

/-- C9: `_HEIF_REGISTERED` becomes true only when either it already was, or
the import succeeded and `register_heif_opener()` returned normally; when
the import fails the flag stays false and the dependency error is raised
again on the next call. -/
theorem ensure_heif_registered_latch (registered importOk : Bool)
    (registerR : Except String Unit) :
    ((ensure_heif_registered registered importOk registerR).2 = true →
      registered = true ∨ (importOk = true ∧ registerR = Except.ok ())) ∧
    (registered = false → importOk = false →
      ensure_heif_registered registered importOk registerR =
        (Except.error depMissingMsg, false) ∧
      ensure_heif_registered
          (ensure_heif_registered registered importOk registerR).2 importOk
          registerR =
        (Except.error depMissingMsg, false)) := by
  cases registered <;> cases importOk <;> rcases registerR with e | u <;>
    simp [ensure_heif_registered]

/-- Witness for C9: registration success sets the flag; with the import
failing, both the first and the second call raise the dependency error. -/
theorem ensure_heif_registered_latch_witness :
    (false = true ∨ (true = true ∧
      (Except.ok () : Except String Unit) = Except.ok ())) ∧
    (ensure_heif_registered false false (Except.ok ()) =
        (Except.error depMissingMsg, false) ∧
      ensure_heif_registered
          (ensure_heif_registered false false (Except.ok ())).2 false
          (Except.ok ()) =
        (Except.error depMissingMsg, false)) :=
  ⟨(ensure_heif_registered_latch false true (Except.ok ())).1 rfl,
   (ensure_heif_registered_latch false false (Except.ok ())).2 rfl rfl⟩

/-- C10: when the source file no longer exists, `_remove_source_file` is a
silent no-op; a cleanup error can arise only from unlinking an existing
file; in the batch step with a missing source, the conversion result is
kept and no cleanup error is recorded. -/
theorem remove_source_file_missing_noop (unlinkR : Except String Unit)
    (src target : String) (q : Int) (sz : Nat) :
    remove_source_file false unlinkR = Except.ok () ∧
    (∀ (ex : Bool) (e : String),
      remove_source_file ex unlinkR = Except.error e →
      ex = true ∧ unlinkR = Except.error e) ∧
    (processFile src ⟨Except.ok (), Except.ok (target, q, sz),
        remove_source_file false unlinkR⟩ true).1 =
      some ⟨src, target, q, sz⟩ ∧
    (processFile src ⟨Except.ok (), Except.ok (target, q, sz),
        remove_source_file false unlinkR⟩ true).2.1 = none := by
  refine ⟨rfl, ?_, ?_, ?_⟩
  · intro ex e h
    cases ex
    · exact absurd h (by simp [remove_source_file])
    · exact ⟨rfl, by simpa [remove_source_file] using h⟩
  · simp [processFile, remove_source_file]
  · simp [processFile, remove_source_file]

/-- Witness for C10: a locked existing file is the only way to a cleanup
error. -/
theorem remove_source_file_missing_noop_witness :
    true = true ∧
    (Except.error "locked" : Except String Unit) = Except.error "locked" :=
  (remove_source_file_missing_noop (Except.error "locked") "a.heic" "a.jpg"
    90 1000).2.1 true "locked" rfl
